import Mathlib

/-!
Verification development for the virtual-tree reconciliation engine
(renderer, keyed-list reconciler, component manager, job scheduler and the
built-in Teleport / KeepAlive components).

The definitions below are shallow embeddings of the JavaScript source:
  * `patchKeyedChildren` and its phase loops embed
    `vue3-source-learning/renderer/quickDiff.js` lines 81-234 (the quick-diff
    algorithm).  JavaScript reads out of the bounds of an array yield
    `undefined`, and dereferencing `.key` on `undefined` throws; the embedding
    is total, so such an access makes the function return `none`.
  * the scheduler functions embed `vue3-source-learning/component/queueJob.js`.
  * the component-manager functions embed `quickDiff.js` lines 235-505
    (mountComponent's setup call, patchComponent, resolveProps,
    hasPropsChanged, setCurrentInstance).
  * the KeepAlive and Teleport functions embed
    `built-in-components/keepalive.js` and `built-in-components/teleport.js`,
    together with the dispatch branches of `renderer/patch.js`.

Mutation of the real tree is represented by operation traces; vnode `el`
fields mutated in place by the source are threaded through an explicit state.
-/

namespace DayDayUp

/-- A keyed child vnode as seen by `patchKeyedChildren`: its `key` and its
realized platform handle `el` (absent until mounted / patched). -/
structure VChild where
  key : Nat
  el : Option Nat
deriving Repr, DecidableEq

/-- Operations `patchKeyedChildren` performs on the mutation target.
`patchPair` is an in-place `patch(oldVNode, newVNode, container)`;
`mountNew` is `patch(null, newVNode, container, anchor)`;
`unmountOld` is `unmount(oldVNode)`;
`moveNode` is `insert(newVNode.el, container, anchor)`. -/
inductive DiffOp where
  | patchPair (oldKey newKey : Nat)
  | mountNew (newKey : Nat) (anchor : Option Nat)
  | unmountOld (oldKey : Nat)
  | moveNode (el : Option Nat) (anchor : Option Nat)
deriving Repr, DecidableEq

/-- Working state of one `patchKeyedChildren` call: the new-children array
(whose `el` fields the source mutates in place), the trace of emitted
operations, and a counter supplying fresh platform handles for mounts. -/
structure DiffState where
  newCh : List VChild
  ops : List DiffOp
  nextHandle : Nat
deriving Repr, DecidableEq

/-- JavaScript array read `l[i]` at a possibly negative index: `undefined`
(here `none`) when out of bounds. -/
def getI (l : List VChild) (i : Int) : Option VChild :=
  if i < 0 then none else l[i.toNat]?

/-- The anchor computation `idx < l.length ? l[idx].el : null`. -/
def elAtI (l : List VChild) (i : Int) : Option Nat :=
  match getI l i with
  | some c => c.el
  | none => none

/-- In-place update `l[i].el = e` (no-op when out of bounds, which never
happens on the paths the source drives). -/
def setElI (l : List VChild) (i : Int) (e : Option Nat) : List VChild :=
  if i < 0 then l
  else
    match l[i.toNat]? with
    | some c => l.set i.toNat { c with el := e }
    | none => l

/-- The key sequence of a children list. -/
def keysOf (l : List VChild) : List Nat :=
  l.map VChild.key

/-- Phase 1 of quickDiff.js (lines 87-98): advance `j` over the common key
front, patching each pair in place (`patch` copies the old handle onto the
new vnode).  The loop guard dereferences `oldChildren[j].key` and
`newChildren[j].key` with no bounds check, so exhausting either list is a
crash (`none`). -/
def prefixLoop (oldChildren : List VChild) (j : Nat) (st : DiffState) :
    Option (Nat × DiffState) :=
  match ho : oldChildren[j]?, hn : st.newCh[j]? with
  | some oldVNode, some newVNode =>
    if oldVNode.key = newVNode.key then
      prefixLoop oldChildren (j + 1)
        { st with
            newCh := setElI st.newCh (j : Int) oldVNode.el,
            ops := st.ops ++ [.patchPair oldVNode.key newVNode.key] }
    else some (j, st)
  | _, _ => none
termination_by oldChildren.length - j
decreasing_by
  have hj : j < oldChildren.length := by
    by_contra hlt
    rw [List.getElem?_eq_none (by omega)] at ho
    exact absurd ho (by simp)
  omega

/-- Phase 2 of quickDiff.js (lines 102-118): walk `oldEnd` / `newEnd` back
over the common key tail, patching in place.  The guard again dereferences
keys with no bounds check: an index that has run off either end (in
particular below `0`) is a crash (`none`). -/
def suffixLoop (oldChildren : List VChild) (oldEnd newEnd : Int)
    (st : DiffState) : Option (Int × Int × DiffState) :=
  match ho : getI oldChildren oldEnd, hn : getI st.newCh newEnd with
  | some oldVNode, some newVNode =>
    if oldVNode.key = newVNode.key then
      suffixLoop oldChildren (oldEnd - 1) (newEnd - 1)
        { st with
            newCh := setElI st.newCh newEnd oldVNode.el,
            ops := st.ops ++ [.patchPair oldVNode.key newVNode.key] }
    else some (oldEnd, newEnd, st)
  | _, _ => none
termination_by (oldEnd + 1).toNat
decreasing_by
  have h0 : ¬ oldEnd < 0 := by
    intro hneg
    simp [getI, hneg] at ho
  omega

/-- Phase 3 of quickDiff.js (lines 122-131): mount the new-window remainder
`j .. newEnd` in ascending order, all anchored before the same precomputed
anchor handle; each mount realizes a fresh handle. -/
def mountRun (newCh0 : List VChild) (j newEnd : Int) (anchor : Option Nat)
    (st : DiffState) : Option DiffState :=
  if j ≤ newEnd then
    match getI st.newCh j with
    | some newVNode =>
      mountRun newCh0 (j + 1) newEnd anchor
        { newCh := setElI st.newCh j (some st.nextHandle),
          ops := st.ops ++ [.mountNew newVNode.key anchor],
          nextHandle := st.nextHandle + 1 }
    | none => none
  else some st
termination_by (newEnd + 1 - j).toNat
decreasing_by
  omega

/-- Phase 4 of quickDiff.js (lines 132-137): unmount the old-window remainder
`j .. oldEnd` in order. -/
def unmountRun (oldChildren : List VChild) (j oldEnd : Int) (st : DiffState) :
    Option DiffState :=
  if j ≤ oldEnd then
    match getI oldChildren j with
    | some oldVNode =>
      unmountRun oldChildren (j + 1) oldEnd
        { st with ops := st.ops ++ [.unmountOld oldVNode.key] }
    | none => none
  else some st
termination_by (oldEnd + 1 - j).toNat
decreasing_by
  omega

/-- JavaScript-object assignment for the `keyIndex` table: a later assignment
to the same key overwrites the earlier one. -/
def kiSet (m : List (Nat × Int)) (k : Nat) (v : Int) : List (Nat × Int) :=
  match m with
  | [] => [(k, v)]
  | e :: rest => if e.1 = k then (k, v) :: rest else e :: kiSet rest k v

/-- Lookup in the `keyIndex` table (`undefined`, i.e. `none`, when absent). -/
def kiGet (m : List (Nat × Int)) (k : Nat) : Option Int :=
  match m with
  | [] => none
  | e :: rest => if e.1 = k then some e.2 else kiGet rest k

/-- quickDiff.js lines 161-164: build the new-window index table
`key --> index` for `i` in `newStart .. newEnd`. -/
def buildKeyIndex (newCh : List VChild) (i newEnd : Int)
    (acc : List (Nat × Int)) : Option (List (Nat × Int)) :=
  if i ≤ newEnd then
    match getI newCh i with
    | some c => buildKeyIndex newCh (i + 1) newEnd (kiSet acc c.key i)
    | none => none
  else some acc
termination_by (newEnd + 1 - i).toNat
decreasing_by
  omega

/-- quickDiff.js lines 166-188: walk the old window once; a key found in the
index table is patched in place, records its old index in the `source` array
and updates the `moved` / `pos` tracking; a key not found is unmounted. -/
def oldWalk (oldChildren : List VChild) (i oldEnd newStart : Int)
    (ki : List (Nat × Int)) (source : List Int) (moved : Bool) (pos : Int)
    (st : DiffState) : Option (List Int × Bool × DiffState) :=
  if i ≤ oldEnd then
    match getI oldChildren i with
    | none => none
    | some oldVNode =>
      match kiGet ki oldVNode.key with
      | some k =>
        match getI st.newCh k with
        | none => none
        | some newVNode =>
          let st' : DiffState :=
            { st with
                newCh := setElI st.newCh k oldVNode.el,
                ops := st.ops ++ [.patchPair oldVNode.key newVNode.key] }
          let source' :=
            if k - newStart < 0 then source
            else source.set (k - newStart).toNat i
          if k < pos then
            oldWalk oldChildren (i + 1) oldEnd newStart ki source' true pos st'
          else
            oldWalk oldChildren (i + 1) oldEnd newStart ki source' moved k st'
      | none =>
        oldWalk oldChildren (i + 1) oldEnd newStart ki source moved pos
          { st with ops := st.ops ++ [.unmountOld oldVNode.key] }
  else some (source, moved, st)
termination_by (oldEnd + 1 - i).toNat
decreasing_by
  all_goals omega

/-- Modelled from the spec: quickDiff.js line 194 calls `lis`, whose
implementation the repository omits (the comment reads "算法实现略").  Per
spec section 4.1 / 4.2 it returns the index sequence of one longest strictly
increasing subsequence of the source array, with `-1` entries excluded from
the computation; only the length and the increasing property matter to the
caller.  Implemented as the straightforward chain-extension dynamic program
(the indices returned are ascending and their values strictly increase). -/
def lis (source : List Int) : List Nat :=
  let chains : List (List Nat) :=
    (List.range source.length).foldl
      (fun acc i =>
        let v := (source[i]?).getD (-1)
        if v = -1 then acc ++ [[]]
        else
          let best := acc.foldl
            (fun b c =>
              match c.getLast? with
              | some j =>
                if (source[j]?).getD (-1) < v ∧ b.length < c.length then c
                else b
              | none => b) []
          acc ++ [best ++ [i]])
      []
  chains.foldl (fun b c => if b.length < c.length then c else b) []

/-- JavaScript array read `seq[s]` where `s` may have run below `0`. -/
def seqAt (seq : List Nat) (s : Int) : Option Nat :=
  if s < 0 then none else seq[s.toNat]?

/-- Phase 5's moved branch, quickDiff.js lines 196-231: traverse the new
window from last to first; a `-1` source entry mounts a fresh node before the
next neighbour's handle, an index not aligned with the current LIS member
moves the node's handle before that anchor, an aligned index retreats the LIS
cursor. -/
def movePass (seq : List Nat) (source : List Int) (newStart : Int) (i s : Int)
    (st : DiffState) : Option DiffState :=
  if i < 0 then some st
  else
    match source[i.toNat]? with
    | none => none
    | some sv =>
      if sv = -1 then
        let pos := i + newStart
        match getI st.newCh pos with
        | none => none
        | some newVNode =>
          let anchor := elAtI st.newCh (pos + 1)
          movePass seq source newStart (i - 1) s
            { newCh := setElI st.newCh pos (some st.nextHandle),
              ops := st.ops ++ [.mountNew newVNode.key anchor],
              nextHandle := st.nextHandle + 1 }
      else
        let aligned : Bool :=
          match seqAt seq s with
          | some q => decide (i = (q : Int))
          | none => false
        if aligned then movePass seq source newStart (i - 1) (s - 1) st
        else
          let pos := i + newStart
          match getI st.newCh pos with
          | none => none
          | some newVNode =>
            let anchor := elAtI st.newCh (pos + 1)
            movePass seq source newStart (i - 1) s
              { st with ops := st.ops ++ [.moveNode newVNode.el anchor] }
termination_by (i + 1).toNat
decreasing_by
  all_goals omega

/-- The keyed-list reconciler, quickDiff.js lines 81-234: phases 1 and 2
shrink the windows from both ends, then either the pure-append branch, the
pure-removal branch, or the general phase-5 branch (index table, source
array, `moved` detection, and the LIS-guided backward pass run only when
`moved` is set). Returns `none` when the source would have thrown. -/
def patchKeyedChildren (oldChildren newChildren : List VChild)
    (startHandle : Nat) : Option DiffState :=
  match prefixLoop oldChildren 0 ⟨newChildren, [], startHandle⟩ with
  | none => none
  | some (j, st1) =>
    match suffixLoop oldChildren ((oldChildren.length : Int) - 1)
        ((newChildren.length : Int) - 1) st1 with
    | none => none
    | some (oldEnd, newEnd, st2) =>
      if (j : Int) > oldEnd ∧ (j : Int) ≤ newEnd then
        let anchorIndex := newEnd + 1
        let anchor := elAtI st2.newCh anchorIndex
        mountRun newChildren (j : Int) newEnd anchor st2
      else if (j : Int) > newEnd ∧ (j : Int) ≤ oldEnd then
        unmountRun oldChildren (j : Int) oldEnd st2
      else
        let count := newEnd - (j : Int) + 1
        if count < 0 then none
        else
          let source := List.replicate count.toNat (-1 : Int)
          let newStart := (j : Int)
          match buildKeyIndex st2.newCh newStart newEnd [] with
          | none => none
          | some keyIndex =>
            match oldWalk oldChildren (j : Int) oldEnd newStart keyIndex
                source false 0 st2 with
            | none => none
            | some (source', moved, st3) =>
              if moved then
                let seq := lis source'
                movePass seq source' newStart (count - 1)
                  ((seq.length : Int) - 1) st3
              else some st3

/-! ## Component instance manager: the current-instance slot

quickDiff.js lines 490-495 keep a module-global `currentInstance`; lines
325-330 of `mountComponent` set it around the `setup` call. -/

/-- The process-wide mutable context: the single `currentInstance` slot
(quickDiff.js line 491). -/
structure GlobalCtx where
  currentInstance : Option Nat
deriving Repr, DecidableEq

/-- quickDiff.js lines 493-495: `setCurrentInstance(instance)` overwrites the
single slot. -/
def setCurrentInstance (g : GlobalCtx) (i : Option Nat) : GlobalCtx :=
  { g with currentInstance := i }

/-- Embeds the setup-call section of `mountComponent` (quickDiff.js lines
325-330): `setCurrentInstance(instance)`, then the `setup` call (modelled as
a function of the global context that either returns a value or throws),
then `setCurrentInstance(null)`.  The source has no `try`/`finally`, so a
throwing `setup` propagates before the reset line runs: the slot is left
holding the instance in that case. -/
def runSetupCall (g : GlobalCtx) (inst : Nat)
    (setup : GlobalCtx → Except String Nat) :
    GlobalCtx × Except String Nat :=
  let g1 := setCurrentInstance g (some inst)
  match setup g1 with
  | .ok v => (setCurrentInstance g1 none, .ok v)
  | .error e => (g1, .error e)

/-! ## Passive component update: resolveProps / hasPropsChanged /
patchComponent (quickDiff.js lines 433-488)

Props objects are embedded as insertion-ordered association lists with
unique keys (JavaScript object semantics); values are `Nat` with the
source's `!==` modelled as decidable inequality. -/

/-- An attributes / props object. -/
abbrev PropMap := List (String × Nat)

/-- JavaScript property read `m[k]` (`none` = `undefined`). -/
def plookup (m : PropMap) (k : String) : Option Nat :=
  match m with
  | [] => none
  | kv :: rest => if kv.1 = k then some kv.2 else plookup rest k

/-- JavaScript `k in m`. -/
def hasKey (m : PropMap) (k : String) : Bool :=
  match m with
  | [] => false
  | kv :: rest => kv.1 = k || hasKey rest k

/-- quickDiff.js lines 474-488: props changed iff the key counts differ or
some key of the next props has a different value (`!==`) than in the
previous props. -/
def hasPropsChanged (prevProps nextProps : PropMap) : Bool :=
  if (nextProps.map Prod.fst).length != (prevProps.map Prod.fst).length then
    true
  else
    (nextProps.map Prod.fst).any
      (fun k => plookup nextProps k != plookup prevProps k)

/-- quickDiff.js lines 454-472: split the incoming attributes into declared
props (keys of the component's props option, plus any key starting with
"on") and pass-through attrs.  The source loops over `propsData` appending
to one of two objects; the same partition expressed as two filters. -/
def resolveProps (options : List String) (propsData : PropMap) :
    PropMap × PropMap :=
  (propsData.filter (fun kv => options.contains kv.1 || kv.1.startsWith "on"),
   propsData.filter
     (fun kv => !(options.contains kv.1 || kv.1.startsWith "on")))

/-- JavaScript assignment `m[k] = v`: updates the binding in place when the
key exists, appends otherwise (JavaScript object keys are unique, so at most
one binding can match). -/
def passign (m : PropMap) (k : String) (v : Nat) : PropMap :=
  match m with
  | [] => [(k, v)]
  | kv :: rest => if kv.1 = k then (k, v) :: rest else kv :: passign rest k v

/-- Embeds `patchComponent` (quickDiff.js lines 433-451): when
`hasPropsChanged` reports no change nothing happens (the instance's live
props object is returned untouched); otherwise the declared props are
recomputed via `resolveProps` and written key-by-key onto the existing
props object (the `for k in nextProps` assignment loop), after which every
key absent from the next props is deleted (the `delete props[k]` loop,
embedded as a filter). -/
def patchComponentProps (n1props n2props : PropMap) (options : List String)
    (instProps : PropMap) : PropMap :=
  if hasPropsChanged n1props n2props then
    let nextProps := (resolveProps options n2props).1
    let updated := nextProps.foldl (fun p kv => passign p kv.1 kv.2) instProps
    updated.filter (fun kv => hasKey nextProps kv.1)
  else instProps

/-! ## Job scheduler (component/queueJob.js)

Jobs are identified by `Nat`; a job's behaviour when executed is supplied as
a function to `Except Unit Unit` (`ok` = returns, `error` = throws).  The
`Set` queue is an insertion-ordered list without duplicates. -/

/-- Scheduler state: the pending `queue` (a JavaScript `Set`: insertion
order, duplicates ignored) and the `isFlushing` flag. -/
structure SchedState where
  queue : List Nat
  isFlushing : Bool
deriving Repr, DecidableEq

/-- `queue.add(job)`: a `Set` keeps insertion order and ignores an element
already present. -/
def queueAdd (q : List Nat) (j : Nat) : List Nat :=
  if j ∈ q then q else q ++ [j]

/-- Embeds the synchronous part of `queueJob` (queueJob.js lines 34-41): add
the job; when no flush is pending, set `isFlushing` and register the flush
microtask.  The returned flag tells whether a new flush got scheduled. -/
def queueJob (s : SchedState) (j : Nat) : SchedState × Bool :=
  let q := queueAdd s.queue j
  if s.isFlushing then ({ queue := q, isFlushing := true }, false)
  else ({ queue := q, isFlushing := true }, true)

/-- `queue.forEach(job => job())` (queueJob.js line 45): run the jobs in
order; a throwing job aborts the iteration and the exception escapes the
`try`.  Returns the jobs that actually ran (in order) and whether an
exception escaped. -/
def runJobs (behav : Nat → Except Unit Unit) : List Nat → List Nat × Bool
  | [] => ([], false)
  | j :: rest =>
    match behav j with
    | .ok _ =>
      let r := runJobs behav rest
      (j :: r.1, r.2)
    | .error _ => ([j], true)

/-- Embeds the flush microtask (queueJob.js lines 42-51):
`try { queue.forEach(job => job()) } finally { isFlushing = false;
queue.clear() }`.  The `finally` block runs on both exits, so the resulting
state is cleared whether or not a job threw. -/
def flush (behav : Nat → Except Unit Unit) (s : SchedState) :
    SchedState × List Nat × Bool :=
  let r := runJobs behav s.queue
  (⟨[], false⟩, r.1, r.2)

/-! ## KeepAlive (built-in-components/keepalive.js) and the patcher's
component dispatch (renderer/patch.js lines 100-111) -/

/-- A component vnode as the KeepAlive render closure and the patcher's
component branch see it: the component type's identity, the type's declared
`name`, whether `typeof type === 'object'`, the instance backlink
`component`, and the three KeepAlive markers. -/
structure CompVNode where
  typeId : Nat
  typeName : Option String
  isObjectType : Bool
  component : Option Nat
  keptAlive : Bool
  shouldKeepAlive : Bool
  keepAliveInstance : Option Nat
deriving Repr, DecidableEq

/-- The KeepAlive cache: `Map` from component type identity to vnode. -/
abbrev KCache := List (Nat × CompVNode)

/-- `cache.get(type)`. -/
def cacheGet (c : KCache) (t : Nat) : Option CompVNode :=
  match c with
  | [] => none
  | e :: rest => if e.1 = t then some e.2 else cacheGet rest t

/-- `cache.set(type, vnode)`: replaces an existing entry, else appends. -/
def cacheSet (c : KCache) (t : Nat) (v : CompVNode) : KCache :=
  match c with
  | [] => [(t, v)]
  | e :: rest => if e.1 = t then (t, v) :: rest else e :: cacheSet rest t v

/-- keepalive.js lines 41-54: the name filter.  `incl` / `excl` model the
optional `include` / `exclude` RegExps by their `test` predicate; a named
child is rejected (rendered directly, bypassing the cache) when `include`
exists and does not match, or `exclude` exists and matches. -/
def kaRejected (incl excl : Option (String → Bool))
    (name : Option String) : Bool :=
  match name with
  | some n =>
    (match incl with
     | some f => !f n
     | none => false) ||
    (match excl with
     | some f => f n
     | none => false)
  | none => false

/-- Embeds the render closure KeepAlive's `setup` returns (keepalive.js
lines 32-76).  Non-component children and filter-rejected children pass
through untouched.  Otherwise, on a cache hit the new vnode inherits the
cached entry's instance and is marked `keptAlive`; on a miss the vnode is
registered in the cache.  Either way the vnode is marked `shouldKeepAlive`
and back-linked to the KeepAlive instance.  (The source stores the vnode
object in the cache before setting the flags; since it stores a reference,
the cached entry carries the flags too, which the pure embedding reflects
by caching the flagged vnode.)  Returns the rendered vnode and the updated
cache. -/
def keepAliveRender (incl excl : Option (String → Bool)) (kaInst : Nat)
    (cache : KCache) (rawVNode : CompVNode) : CompVNode × KCache :=
  if !rawVNode.isObjectType then (rawVNode, cache)
  else if kaRejected incl excl rawVNode.typeName then (rawVNode, cache)
  else
    match cacheGet cache rawVNode.typeId with
    | some cachedVNode =>
      let v := { rawVNode with
                   component := cachedVNode.component,
                   keptAlive := true,
                   shouldKeepAlive := true,
                   keepAliveInstance := some kaInst }
      (v, cache)
    | none =>
      let v := { rawVNode with
                   shouldKeepAlive := true,
                   keepAliveInstance := some kaInst }
      (v, cacheSet cache rawVNode.typeId v)

/-- What the Tree Patcher decides to do with a component vnode.
`activate` abstracts `n2.keepAliveInstance._activate(n2, container, anchor)`
(keepalive.js lines 28-30: a `move` of the stored subtree back before the
anchor); `mount` is `mountComponent`; `patchExisting` is
`patchComponent`. -/
inductive ComponentMountAction where
  | activate (kaInstance : Option Nat) (container : Nat) (anchor : Option Nat)
  | mount (container : Nat) (anchor : Option Nat)
  | patchExisting
deriving Repr, DecidableEq

/-- Embeds the component branch of `patch` (patch.js lines 100-111): with no
old vnode, a vnode marked `keptAlive` is activated through its KeepAlive
instance instead of being freshly mounted; otherwise it is mounted; with an
old vnode it is passively updated. -/
def patchComponentDispatch (n1 : Option CompVNode) (n2 : CompVNode)
    (container : Nat) (anchor : Option Nat) : ComponentMountAction :=
  match n1 with
  | none =>
    if n2.keptAlive then .activate n2.keepAliveInstance container anchor
    else .mount container anchor
  | some _ => .patchExisting

/-! ## Teleport (built-in-components/teleport.js) -/

/-- Operations the Teleport `process` function issues through the renderer
internals it receives: `patchChildrenOp c` is `patchChildren(n1, n2, c)`
(reconcile the children against container `c`); `mountChild` is
`patch(null, child, target, anchor)`; `moveChild` is `move(child, target)`;
`unmountChild` is `unmount(child)` (never issued by Teleport, present so its
absence is expressible). -/
inductive TeleOp where
  | patchChildrenOp (container : Nat)
  | mountChild (childId : Nat) (target : Nat) (anchor : Option Nat)
  | moveChild (childId : Nat) (target : Nat)
  | unmountChild (childId : Nat)
deriving Repr, DecidableEq

/-- A Teleport vnode: its `to` prop and its children (by identity). -/
structure TeleVNode where
  toProp : String
  children : List Nat
deriving Repr, DecidableEq

/-- Embeds `Teleport.process` (teleport.js lines 3-28).  `resolve` models
the target resolution (`document.querySelector` for a string `to`).  Mount
path: resolve the target and mount every child into it.  Update path:
reconcile children against the given container first, and only if the `to`
prop changed resolve the new target and move every child's handle there. -/
def teleportProcess (resolve : String → Nat) (n1 : Option TeleVNode)
    (n2 : TeleVNode) (container : Nat) (anchor : Option Nat) : List TeleOp :=
  match n1 with
  | none =>
    let target := resolve n2.toProp
    n2.children.map (fun c => .mountChild c target anchor)
  | some old =>
    let ops := [TeleOp.patchChildrenOp container]
    if n2.toProp != old.toProp then
      let newTarget := resolve n2.toProp
      ops ++ n2.children.map (fun c => .moveChild c newTarget)
    else ops

/-! ## Branch equations for the phase-1 / phase-2 loops -/

/-- Reading past the end of the old list in phase 1 is a crash. -/
lemma prefixLoop_crash_left (old : List VChild) (j : Nat) (st : DiffState)
    (h : old[j]? = none) : prefixLoop old j st = none := by
  rw [prefixLoop.eq_def]
  split <;> simp_all

/-- Reading past the end of the new list in phase 1 is a crash. -/
lemma prefixLoop_crash_right (old : List VChild) (j : Nat) (st : DiffState)
    (h : st.newCh[j]? = none) : prefixLoop old j st = none := by
  rw [prefixLoop.eq_def]
  split <;> simp_all

/-- One phase-1 iteration with both children present. -/
lemma prefixLoop_step (old : List VChild) (j : Nat) (st : DiffState)
    (o n : VChild) (ho : old[j]? = some o) (hn : st.newCh[j]? = some n) :
    prefixLoop old j st =
      if o.key = n.key then
        prefixLoop old (j + 1)
          { st with newCh := setElI st.newCh (j : Int) o.el,
                    ops := st.ops ++ [.patchPair o.key n.key] }
      else some (j, st) := by
  rw [prefixLoop.eq_def]
  split <;> simp_all

/-- Running the old index off either end in phase 2 is a crash. -/
lemma suffixLoop_crash_left (old : List VChild) (oe ne : Int) (st : DiffState)
    (h : getI old oe = none) : suffixLoop old oe ne st = none := by
  rw [suffixLoop.eq_def]
  split <;> simp_all

/-- Running the new index off either end in phase 2 is a crash. -/
lemma suffixLoop_crash_right (old : List VChild) (oe ne : Int)
    (st : DiffState) (h : getI st.newCh ne = none) :
    suffixLoop old oe ne st = none := by
  rw [suffixLoop.eq_def]
  split <;> simp_all

/-- One phase-2 iteration with both children present. -/
lemma suffixLoop_step (old : List VChild) (oe ne : Int) (st : DiffState)
    (o n : VChild) (ho : getI old oe = some o)
    (hn : getI st.newCh ne = some n) :
    suffixLoop old oe ne st =
      if o.key = n.key then
        suffixLoop old (oe - 1) (ne - 1)
          { st with newCh := setElI st.newCh ne o.el,
                    ops := st.ops ++ [.patchPair o.key n.key] }
      else some (oe, ne, st) := by
  rw [suffixLoop.eq_def]
  split <;> simp_all

/-! ## Scheduler lemmas -/

/-- When no job throws, the whole queue executes, in order. -/
lemma runJobs_all_ok (behav : Nat → Except Unit Unit) :
    ∀ q : List Nat, (∀ x ∈ q, behav x = Except.ok ()) →
      runJobs behav q = (q, false) := by
  intro q
  induction q with
  | nil => intro _; rfl
  | cons p ps ih =>
    intro h
    have hp : behav p = Except.ok () := h p (by simp)
    simp [runJobs, hp, ih (fun x hx => h x (by simp [hx]))]

/-- A throwing job stops the `forEach`: exactly the jobs before it, plus the
throwing job itself, run. -/
lemma runJobs_stops_at_error (behav : Nat → Except Unit Unit) (j : Nat)
    (post : List Nat) (hj : behav j = Except.error ()) :
    ∀ pre : List Nat, (∀ x ∈ pre, behav x = Except.ok ()) →
      runJobs behav (pre ++ j :: post) = (pre ++ [j], true) := by
  intro pre
  induction pre with
  | nil => intro _; simp [runJobs, hj]
  | cons p ps ih =>
    intro h
    have hp : behav p = Except.ok () := h p (by simp)
    simp [runJobs, hp, ih (fun x hx => h x (by simp [hx]))]

/-- Claim C5 counterexample: with jobs `[0, 1]` queued and job `0` throwing,
the flush does not execute job `1`, refuting "the remaining jobs queued in
the same batch still execute". -/
theorem C5_counterexample :
    (1 : Nat) ∈ (⟨[0, 1], true⟩ : SchedState).queue ∧
    1 ∉ (flush (fun n => if n = 0 then Except.error () else Except.ok ())
          ⟨[0, 1], true⟩).2.1 := by
  decide

/-- Claim C5 (amended): a job that throws during the flush aborts the
`forEach`, so only the jobs queued before it (plus the throwing job itself)
execute and the exception escapes; the `finally` block still clears the
queue and resets the flag. -/
theorem C5_amended (behav : Nat → Except Unit Unit) (pre post : List Nat)
    (j : Nat) (hpre : ∀ x ∈ pre, behav x = Except.ok ())
    (hj : behav j = Except.error ()) :
    (flush behav ⟨pre ++ j :: post, true⟩).2.1 = pre ++ [j] ∧
    (flush behav ⟨pre ++ j :: post, true⟩).2.2 = true ∧
    (flush behav ⟨pre ++ j :: post, true⟩).1 = ⟨[], false⟩ := by
  refine ⟨?_, ?_, rfl⟩ <;>
    simp [flush, runJobs_stops_at_error behav j post hj pre hpre]

/-- Witness for C5_amended at a concrete batch: queue `[5, 0, 7]`, job `0`
throws; `5` and `0` run, `7` does not, and the state is cleared. -/
theorem C5_amended_witness :
    (flush (fun n => if n = 0 then Except.error () else Except.ok ())
        ⟨[5] ++ 0 :: [7], true⟩).2.1 = [5] ++ [0] ∧
    (flush (fun n => if n = 0 then Except.error () else Except.ok ())
        ⟨[5] ++ 0 :: [7], true⟩).2.2 = true ∧
    (flush (fun n => if n = 0 then Except.error () else Except.ok ())
        ⟨[5] ++ 0 :: [7], true⟩).1 = ⟨[], false⟩ :=
  C5_amended (fun n => if n = 0 then Except.error () else Except.ok ())
    [5] [7] 0
    (by
      intro x hx
      simp only [List.mem_singleton] at hx
      subst hx
      rfl)
    rfl

/-- Claim C6: on every exit of the flush — whatever the job behaviours,
including a mid-batch throw — the pending queue is cleared and `isFlushing`
is reset, so a subsequent enqueue schedules a new flush. -/
theorem C6_flush_always_resets (behav : Nat → Except Unit Unit)
    (s : SchedState) (j : Nat) :
    (flush behav s).1.queue = [] ∧
    (flush behav s).1.isFlushing = false ∧
    (queueJob (flush behav s).1 j).2 = true := by
  refine ⟨rfl, rfl, ?_⟩
  simp [flush, queueJob]

/-- Enqueuing always leaves the queue equal to `queueAdd` of the old queue,
whatever the `isFlushing` flag. -/
lemma queueJob_queue (s : SchedState) (j : Nat) :
    (queueJob s j).1.queue = queueAdd s.queue j := by
  unfold queueJob
  split <;> rfl

/-- Adding a job already pending is a no-op on the queue. -/
lemma queueAdd_mem {q : List Nat} {j : Nat} (h : j ∈ q) :
    queueAdd q j = q := by
  simp [queueAdd, h]

/-- Claim C7: enqueuing the same job three times before the flush leaves the
pending collection exactly as after the first enqueue (each duplicate is a
no-op), and the flush executes that job exactly once. -/
theorem C7_dedup (s : SchedState) (j : Nat) (behav : Nat → Except Unit Unit)
    (h1 : j ∉ s.queue) (h2 : ∀ x, behav x = Except.ok ()) :
    (queueJob (queueJob s j).1 j).1.queue = (queueJob s j).1.queue ∧
    (queueJob (queueJob (queueJob s j).1 j).1 j).1.queue
      = (queueJob s j).1.queue ∧
    (flush behav
        (queueJob (queueJob (queueJob s j).1 j).1 j).1).2.1.count j = 1 := by
  have hq1 : (queueJob s j).1.queue = s.queue ++ [j] := by
    rw [queueJob_queue]
    simp [queueAdd, h1]
  have hmem : j ∈ (queueJob s j).1.queue := by
    rw [hq1]; simp
  have hq2 : (queueJob (queueJob s j).1 j).1.queue
      = (queueJob s j).1.queue := by
    rw [queueJob_queue, queueAdd_mem hmem]
  have hmem2 : j ∈ (queueJob (queueJob s j).1 j).1.queue := by
    rw [hq2]; exact hmem
  have hq3 : (queueJob (queueJob (queueJob s j).1 j).1 j).1.queue
      = (queueJob (queueJob s j).1 j).1.queue := by
    rw [queueJob_queue, queueAdd_mem hmem2]
  refine ⟨hq2, by rw [hq3, hq2], ?_⟩
  rw [flush, runJobs_all_ok behav _ (fun x _ => h2 x), hq3, hq2, hq1]
  simp [List.count_append, List.count_eq_zero_of_not_mem h1]

/-- Witness for C7_dedup: from an empty scheduler, enqueue job `5` three
times; the queue never grows past the first enqueue and the flush runs job
`5` exactly once. -/
theorem C7_dedup_witness :
    (queueJob (queueJob (⟨[], false⟩ : SchedState) 5).1 5).1.queue
      = (queueJob (⟨[], false⟩ : SchedState) 5).1.queue ∧
    (queueJob (queueJob (queueJob (⟨[], false⟩ : SchedState) 5).1 5).1 5).1.queue
      = (queueJob (⟨[], false⟩ : SchedState) 5).1.queue ∧
    (flush (fun _ => Except.ok ())
        (queueJob (queueJob (queueJob (⟨[], false⟩ : SchedState) 5).1 5).1
          5).1).2.1.count 5 = 1 :=
  C7_dedup ⟨[], false⟩ 5 (fun _ => Except.ok ()) (by decide) (fun _ => rfl)

/-- Claim C4 counterexample: when `setup` throws, the current-instance slot
is NOT cleared — it still holds the instance after the call, refuting
"cleared on every exit path of that invocation, including when setup
throws". -/
theorem C4_counterexample :
    (runSetupCall ⟨none⟩ 7 (fun _ => Except.error "boom")).1.currentInstance
      = some 7 ∧
    (runSetupCall ⟨none⟩ 7 (fun _ => Except.error "boom")).2
      = Except.error "boom" := by
  constructor <;> rfl

/-- Claim C4 (amended): the slot is set to the instance immediately before
`setup` is invoked and is reset to `null` when `setup` returns normally;
when `setup` throws, the exception propagates past the reset line and the
slot keeps holding the instance. -/
theorem C4_amended (g : GlobalCtx) (inst : Nat)
    (setup : GlobalCtx → Except String Nat) :
    (setCurrentInstance g (some inst)).currentInstance = some inst ∧
    (∀ v, setup (setCurrentInstance g (some inst)) = Except.ok v →
      (runSetupCall g inst setup).1.currentInstance = none) ∧
    (∀ e, setup (setCurrentInstance g (some inst)) = Except.error e →
      (runSetupCall g inst setup).1.currentInstance = some inst) := by
  refine ⟨rfl, ?_, ?_⟩
  · intro v hv
    simp only [setCurrentInstance] at hv
    simp [runSetupCall, setCurrentInstance, hv]
  · intro e he
    simp only [setCurrentInstance] at he
    simp [runSetupCall, setCurrentInstance, he]

/-- Witness for C4_amended: a concrete successful `setup` sees the slot set
and leaves it cleared. -/
theorem C4_amended_witness :
    (setCurrentInstance ⟨none⟩ (some 3)).currentInstance = some 3 ∧
    (runSetupCall ⟨none⟩ 3 (fun _ => Except.ok 0)).1.currentInstance
      = none :=
  ⟨(C4_amended ⟨none⟩ 3 (fun _ => Except.ok 0)).1,
   (C4_amended ⟨none⟩ 3 (fun _ => Except.ok 0)).2.1 0 rfl⟩

/-! ## Props-map lemmas for the passive component update -/

/-- Looking up an absent key yields `undefined`. -/
lemma plookup_eq_none_of_not_hasKey {m : PropMap} {k : String}
    (h : hasKey m k = false) : plookup m k = none := by
  induction m with
  | nil => rfl
  | cons hd tl ih =>
    simp only [hasKey, Bool.or_eq_false_iff, decide_eq_false_iff_not] at h
    simp only [plookup, if_neg h.1]
    exact ih h.2

/-- Membership reading of `hasKey`. -/
lemma hasKey_iff_mem {m : PropMap} {k : String} :
    hasKey m k = true ↔ k ∈ m.map Prod.fst := by
  induction m with
  | nil => simp [hasKey]
  | cons hd tl ih =>
    by_cases h : hd.1 = k
    · simp [hasKey, h]
    · simp [hasKey, h, ih, Ne.symm h]

/-- Assignment makes the assigned key readable. -/
lemma plookup_passign_self (m : PropMap) (k : String) (v : Nat) :
    plookup (passign m k v) k = some v := by
  induction m with
  | nil => simp [passign, plookup]
  | cons hd tl ih =>
    by_cases h : hd.1 = k
    · simp [passign, h, plookup]
    · simp [passign, h, plookup, ih]

/-- Assignment leaves every other key unchanged. -/
lemma plookup_passign_other (m : PropMap) (k k' : String) (v : Nat)
    (h : k' ≠ k) : plookup (passign m k v) k' = plookup m k' := by
  have hkk : ¬k = k' := fun hx => h hx.symm
  induction m with
  | nil => simp [passign, plookup, hkk]
  | cons hd tl ih =>
    by_cases hk : hd.1 = k
    · have hne : ¬hd.1 = k' := by rw [hk]; exact hkk
      simp [passign, hk, plookup, hkk, hne]
    · by_cases hk' : hd.1 = k'
      · simp [passign, hk, plookup, hk', h]
      · simp [passign, hk, plookup, hk', ih]

/-- Effect of the `for k in nextProps` assignment loop on lookups: keys of
`next` read their `next` value (first binding), all other keys read the
original map. -/
lemma plookup_foldl_passign (next : PropMap)
    (hnd : (next.map Prod.fst).Nodup) (m : PropMap) (k : String) :
    plookup (next.foldl (fun p kv => passign p kv.1 kv.2) m) k
      = if hasKey next k then plookup next k else plookup m k := by
  induction next generalizing m with
  | nil => simp [hasKey]
  | cons hd tl ih =>
    simp only [List.map_cons, List.nodup_cons] at hnd
    simp only [List.foldl_cons]
    rw [ih hnd.2]
    by_cases hmem : hasKey tl k
    · have hne : hd.1 ≠ k := by
        intro he
        exact hnd.1 (he ▸ hasKey_iff_mem.mp hmem)
      simp [hasKey, hmem, plookup, hne]
    · by_cases heq : hd.1 = k
      · subst heq
        simp [hasKey, hmem, plookup, plookup_passign_self,
          plookup_eq_none_of_not_hasKey (Bool.not_eq_true _ ▸ hmem)]
      · simp [hasKey, hmem, heq, plookup,
          plookup_passign_other m hd.1 k hd.2 (fun hx => heq hx.symm)]

/-- Lookup through a filter keyed on the entry key. -/
lemma plookup_filter (m : PropMap) (f : String → Bool) (k : String) :
    plookup (m.filter (fun kv => f kv.1)) k
      = if f k then plookup m k else none := by
  induction m with
  | nil => simp [plookup]
  | cons hd tl ih =>
    by_cases hk : hd.1 = k
    · subst hk
      by_cases hf : f hd.1
      · simp [List.filter_cons, hf, plookup]
      · simp [List.filter_cons, hf, plookup, ih]
    · by_cases hf : f hd.1
      · simp [List.filter_cons, hf, plookup, hk, ih]
      · simp [List.filter_cons, hf, plookup, hk, ih]

/-- Claim C8: when the shallow comparison `hasPropsChanged` reports no
change, `patchComponent` leaves the instance's live props object untouched
(hence nothing for the child's props subscription to react to); when it
reports a change, after the key-by-key overwrite and the deletion of stale
keys the live props object reads exactly as the freshly resolved declared
props. -/
theorem C8_patchComponent (prev next : PropMap) (options : List String)
    (instProps : PropMap) (hnd : (next.map Prod.fst).Nodup) :
    (hasPropsChanged prev next = false →
      patchComponentProps prev next options instProps = instProps) ∧
    (hasPropsChanged prev next = true →
      ∀ k, plookup (patchComponentProps prev next options instProps) k
        = plookup (resolveProps options next).1 k) := by
  constructor
  · intro h
    simp [patchComponentProps, h]
  · intro h k
    have hnd2 : (((resolveProps options next).1).map Prod.fst).Nodup :=
      List.Nodup.sublist (List.Sublist.map Prod.fst (List.filter_sublist next))
        hnd
    unfold patchComponentProps
    rw [if_pos h]
    rw [plookup_filter]
    rw [plookup_foldl_passign _ hnd2]
    by_cases hk : hasKey (resolveProps options next).1 k
    · simp [hk]
    · simp only [Bool.not_eq_true] at hk
      simp [hk, plookup_eq_none_of_not_hasKey hk]

/-- Witness for C8_patchComponent, changed branch: prev `a=1`, next `a=2`
with declared options `[a]`; after the patch the live props read the new
declared value. -/
theorem C8_patchComponent_witness :
    plookup (patchComponentProps [("a", 1)] [("a", 2)] ["a"] [("a", 1)]) "a"
      = plookup (resolveProps ["a"] [("a", 2)]).1 "a" :=
  (C8_patchComponent [("a", 1)] [("a", 2)] ["a"] [("a", 1)]
    (by simp)).2 rfl "a"

/-- Claim C10: a Teleport update whose `to` prop changed first reconciles
the children against the original container bookkeeping (one
`patchChildren` against the passed container, no re-resolution), then moves
every child's handle to the newly resolved target via the move primitive;
no child is mounted or unmounted, so handles and instances survive. -/
theorem C10_teleport_move (resolve : String → Nat) (old n2 : TeleVNode)
    (container : Nat) (anchor : Option Nat) (h : n2.toProp ≠ old.toProp) :
    teleportProcess resolve (some old) n2 container anchor =
      TeleOp.patchChildrenOp container ::
        n2.children.map (fun c => TeleOp.moveChild c (resolve n2.toProp)) ∧
    ∀ op ∈ teleportProcess resolve (some old) n2 container anchor,
      (∀ c t a, op ≠ TeleOp.mountChild c t a) ∧
      (∀ c, op ≠ TeleOp.unmountChild c) := by
  have hne : (n2.toProp != old.toProp) = true := by
    simpa [bne_iff_ne] using h
  have heq : teleportProcess resolve (some old) n2 container anchor =
      TeleOp.patchChildrenOp container ::
        n2.children.map (fun c => TeleOp.moveChild c (resolve n2.toProp)) := by
    simp [teleportProcess, hne]
  refine ⟨heq, ?_⟩
  intro op hop
  rw [heq, List.mem_cons] at hop
  rcases hop with rfl | hmem
  · exact ⟨fun c t a => by simp, fun c => by simp⟩
  · obtain ⟨c, _, rfl⟩ := List.mem_map.mp hmem
    exact ⟨fun c' t a => by simp, fun c' => by simp⟩

/-- Witness for C10_teleport_move: destination changes from "#a" to "#b";
the trace is one reconcile against the original container followed by a
move of each child to the resolved new target. -/
theorem C10_teleport_move_witness :
    teleportProcess (fun s => if s = "#b" then 2 else 1)
        (some ⟨"#a", [4]⟩) ⟨"#b", [4, 6]⟩ 0 none =
      TeleOp.patchChildrenOp 0 ::
        (⟨"#b", [4, 6]⟩ : TeleVNode).children.map
          (fun c => TeleOp.moveChild c
            ((fun s => if s = "#b" then 2 else 1)
              (⟨"#b", [4, 6]⟩ : TeleVNode).toProp)) :=
  (C10_teleport_move (fun s => if s = "#b" then 2 else 1) ⟨"#a", [4]⟩
    ⟨"#b", [4, 6]⟩ 0 none (by decide)).1

/-- Registering a vnode in the KeepAlive cache makes it retrievable. -/
lemma cacheGet_cacheSet_self (c : KCache) (t : Nat) (v : CompVNode) :
    cacheGet (cacheSet c t v) t = some v := by
  induction c with
  | nil => simp [cacheSet, cacheGet]
  | cons e rest ih =>
    by_cases h : e.1 = t
    · simp [cacheSet, h, cacheGet]
    · simp [cacheSet, h, cacheGet, ih]

/-- Claim C9: when the KeepAlive render sees a component child that passes
the name filter, a cache hit links the cached entry's instance onto the new
vnode and marks it `keptAlive`, upon which the patcher's component branch
dispatches an activate (a move back before the anchor) instead of a fresh
mount; a cache miss registers the vnode in the cache and the patcher mounts
it normally. -/
theorem C9_keepalive (incl excl : Option (String → Bool)) (kaInst : Nat)
    (cache : KCache) (raw : CompVNode) (container : Nat) (anchor : Option Nat)
    (hobj : raw.isObjectType = true)
    (hrej : kaRejected incl excl raw.typeName = false)
    (hfresh : raw.keptAlive = false) :
    (∀ cached, cacheGet cache raw.typeId = some cached →
      (keepAliveRender incl excl kaInst cache raw).1.component
          = cached.component ∧
      (keepAliveRender incl excl kaInst cache raw).1.keptAlive = true ∧
      (keepAliveRender incl excl kaInst cache raw).2 = cache ∧
      patchComponentDispatch none (keepAliveRender incl excl kaInst cache raw).1
          container anchor
        = ComponentMountAction.activate (some kaInst) container anchor) ∧
    (cacheGet cache raw.typeId = none →
      cacheGet (keepAliveRender incl excl kaInst cache raw).2 raw.typeId
          = some (keepAliveRender incl excl kaInst cache raw).1 ∧
      (keepAliveRender incl excl kaInst cache raw).1.keptAlive = false ∧
      (keepAliveRender incl excl kaInst cache raw).1.component
          = raw.component ∧
      patchComponentDispatch none (keepAliveRender incl excl kaInst cache raw).1
          container anchor
        = ComponentMountAction.mount container anchor) := by
  constructor
  · intro cached hc
    refine ⟨?_, ?_, ?_, ?_⟩ <;>
      simp [keepAliveRender, hobj, hrej, hc, patchComponentDispatch]
  · intro hc
    refine ⟨?_, ?_, ?_, ?_⟩ <;>
      simp [keepAliveRender, hobj, hrej, hc, patchComponentDispatch,
        cacheGet_cacheSet_self, hfresh]

/-- Witness for C9_keepalive, cache-hit branch: a cached type-5 child is
linked to the cached instance, marked restorable, and dispatched to
activate rather than mount. -/
theorem C9_keepalive_witness :
    (keepAliveRender none none 1
        [(5, ⟨5, some "A", true, some 9, true, true, some 1⟩)]
        ⟨5, some "A", true, none, false, false, none⟩).1.component
      = (⟨5, some "A", true, some 9, true, true, some 1⟩ : CompVNode).component ∧
    (keepAliveRender none none 1
        [(5, ⟨5, some "A", true, some 9, true, true, some 1⟩)]
        ⟨5, some "A", true, none, false, false, none⟩).1.keptAlive = true ∧
    (keepAliveRender none none 1
        [(5, ⟨5, some "A", true, some 9, true, true, some 1⟩)]
        ⟨5, some "A", true, none, false, false, none⟩).2
      = [(5, ⟨5, some "A", true, some 9, true, true, some 1⟩)] ∧
    patchComponentDispatch none
        (keepAliveRender none none 1
          [(5, ⟨5, some "A", true, some 9, true, true, some 1⟩)]
          ⟨5, some "A", true, none, false, false, none⟩).1 0 none
      = ComponentMountAction.activate (some 1) 0 none :=
  (C9_keepalive none none 1
    [(5, ⟨5, some "A", true, some 9, true, true, some 1⟩)]
    ⟨5, some "A", true, none, false, false, none⟩ 0 none rfl rfl rfl).1
    ⟨5, some "A", true, some 9, true, true, some 1⟩ rfl

/-- Claim C1 (code evaluation at the failing input): old keys `[0,1,2,9]`,
new keys `[0,2,3,9]`.  Phases 1-2 patch `0` and `9`; phase 5 unmounts `1`
and patches `2` in place with every matched new index non-decreasing, so
`moved` stays false, yet the source array still holds a `-1` for new key
`3` — and the run mounts nothing: the trace contains no mount operation, so
new key `3` is never inserted. -/
theorem C1_nonmoved_skips_mounts :
    ((patchKeyedChildren
        [⟨0, some 10⟩, ⟨1, some 11⟩, ⟨2, some 12⟩, ⟨9, some 13⟩]
        [⟨0, none⟩, ⟨2, none⟩, ⟨3, none⟩, ⟨9, none⟩] 100).map DiffState.ops
      = some [.patchPair 0 0, .patchPair 9 9, .unmountOld 1,
              .patchPair 2 2]) ∧
    (∀ a, DiffOp.mountNew 3 a ∉
      [DiffOp.patchPair 0 0, DiffOp.patchPair 9 9, DiffOp.unmountOld 1,
       DiffOp.patchPair 2 2]) := by
  constructor
  · simp [patchKeyedChildren, prefixLoop_step, prefixLoop_crash_left,
      suffixLoop_step, suffixLoop_crash_left, suffixLoop_crash_right,
      buildKeyIndex.eq_def, oldWalk.eq_def,
      getI, setElI, elAtI, kiSet, kiGet]
  · intro a
    simp

/-! ## Window-overrun lemmas for claim C3 -/

/-- Replacing an element of a list by the element already there is the
identity. -/
lemma set_getElem_self_eq (l : List VChild) (n : Nat) (h : n < l.length) :
    l.set n l[n] = l := by
  apply List.ext_getElem
  · simp
  · intro i h1 h2
    simp only [List.getElem_set]
    split
    · rename_i he
      subst he
      rfl
    · rfl

/-- Updating an `el` field never changes the key sequence. -/
lemma keysOf_setElI (l : List VChild) (i : Int) (e : Option Nat) :
    keysOf (setElI l i e) = keysOf l := by
  unfold setElI
  split
  · rfl
  · split
    · rename_i c hc
      obtain ⟨hlt, hget⟩ := List.getElem?_eq_some.mp hc
      unfold keysOf
      rw [List.map_set]
      have hkeq : ({ c with el := e } : VChild).key = c.key := rfl
      rw [hkeq]
      have hb2 : i.toNat < (List.map VChild.key l).length := by
        simpa using hlt
      have hkey : (List.map VChild.key l)[i.toNat] = c.key := by
        rw [List.getElem_map]
        rw [hget]
      rw [← hkey]
      apply List.ext_getElem
      · simp
      · intro m h1 h2
        simp only [List.getElem_set]
        split
        · rename_i he
          subst he
          rfl
        · rfl
    · rfl

/-- Updating an `el` field never changes the length. -/
lemma length_setElI (l : List VChild) (i : Int) (e : Option Nat) :
    (setElI l i e).length = l.length := by
  unfold setElI
  split
  · rfl
  · split
    · simp [List.length_set]
    · rfl

/-- Reading at a non-negative index is the plain list read. -/
lemma getI_nonneg (l : List VChild) (i : Int) (h : 0 ≤ i) :
    getI l i = l[i.toNat]? := by
  unfold getI
  rw [if_neg (by omega)]

/-- When the keys of the two lists agree at every position from `j` on where
both are defined, phase 1 never meets a mismatch, runs one of the indices
past its list's end, and crashes. -/
lemma prefixLoop_exhausts (old : List VChild) :
    ∀ (n j : Nat) (st : DiffState), old.length - j ≤ n →
      (∀ i, j ≤ i → i < old.length → i < st.newCh.length →
        (keysOf old)[i]? = (keysOf st.newCh)[i]?) →
      prefixLoop old j st = none := by
  intro n
  induction n with
  | zero =>
    intro j st hn _
    exact prefixLoop_crash_left _ _ _ (List.getElem?_eq_none (by omega))
  | succ n ih =>
    intro j st hn hagree
    by_cases hj : j < old.length
    · by_cases hjn : j < st.newCh.length
      · have ho : old[j]? = some old[j] := List.getElem?_eq_getElem hj
        have hn' : st.newCh[j]? = some st.newCh[j] :=
          List.getElem?_eq_getElem hjn
        have hkeys := hagree j le_rfl hj hjn
        unfold keysOf at hkeys
        rw [List.getElem?_map, List.getElem?_map, ho, hn'] at hkeys
        simp only [Option.map_some', Option.some.injEq] at hkeys
        rw [prefixLoop_step old j st _ _ ho hn', if_pos hkeys]
        refine ih (j + 1) _ (by omega) ?_
        intro i hi h1 h2
        rw [length_setElI] at h2
        have hg := hagree i (by omega) h1 h2
        simpa [keysOf_setElI] using hg
      · exact prefixLoop_crash_right _ _ _ (List.getElem?_eq_none (by omega))
    · exact prefixLoop_crash_left _ _ _ (List.getElem?_eq_none (by omega))

/-- When the keys of the last `t` old-list items agree pairwise with the
last `t` new-list items (offsets `δo`, `δn`, the exhausted side having
offset `0`), phase 2 never meets a mismatch, decrements one index to `-1`,
and crashes. -/
lemma suffixLoop_exhausts (old : List VChild) :
    ∀ (t δo δn : Nat) (st : DiffState), (δo = 0 ∨ δn = 0) →
      t + δo ≤ old.length → t + δn ≤ st.newCh.length →
      (∀ i, i < t → (keysOf old)[i + δo]? = (keysOf st.newCh)[i + δn]?) →
      suffixLoop old ((t : Int) + (δo : Int) - 1) ((t : Int) + (δn : Int) - 1)
        st = none := by
  intro t
  induction t with
  | zero =>
    intro δo δn st hδ hbo hbn _
    rcases hδ with h0 | h0
    · subst h0
      apply suffixLoop_crash_left
      unfold getI
      rw [if_pos (by omega)]
    · subst h0
      apply suffixLoop_crash_right
      unfold getI
      rw [if_pos (by omega)]
  | succ t ih =>
    intro δo δn st hδ hbo hbn hagree
    have hbo' : t + δo < old.length := by omega
    have hbn' : t + δn < st.newCh.length := by omega
    have hioe : ((t + 1 : Nat) : Int) + (δo : Int) - 1
        = ((t + δo : Nat) : Int) := by push_cast; ring
    have hine : ((t + 1 : Nat) : Int) + (δn : Int) - 1
        = ((t + δn : Nat) : Int) := by push_cast; ring
    rw [hioe, hine]
    have ho : getI old ((t + δo : Nat) : Int) = some old[t + δo] := by
      rw [getI_nonneg _ _ (by omega), Int.toNat_natCast]
      exact List.getElem?_eq_getElem hbo'
    have hn : getI st.newCh ((t + δn : Nat) : Int)
        = some st.newCh[t + δn] := by
      rw [getI_nonneg _ _ (by omega), Int.toNat_natCast]
      exact List.getElem?_eq_getElem hbn'
    have hkeys := hagree t (by omega)
    unfold keysOf at hkeys
    rw [List.getElem?_map, List.getElem?_map,
      List.getElem?_eq_getElem hbo', List.getElem?_eq_getElem hbn'] at hkeys
    simp only [Option.map_some', Option.some.injEq] at hkeys
    rw [suffixLoop_step old _ _ st _ _ ho hn, if_pos hkeys]
    have e1 : ((t + δo : Nat) : Int) - 1 = ((t : Nat) : Int) + (δo : Int) - 1 := by
      push_cast; ring
    have e2 : ((t + δn : Nat) : Int) - 1 = ((t : Nat) : Int) + (δn : Int) - 1 := by
      push_cast; ring
    rw [e1, e2]
    refine ih δo δn _ hδ (by omega) ?_ ?_
    · rw [length_setElI]
      omega
    · intro i hi
      have hg := hagree i (by omega)
      simpa [keysOf_setElI] using hg

/-- Claim C3: the phase-1 / phase-2 loops stop only on a key mismatch, never
on a length check.  For key-identical lists and for pure appends/removals
sharing the full common key front, and for pure front insertions/removals
sharing the full common key tail (under the per-list distinct-keys
invariant), the loop dereferences the key of an element past one list's end
before phases 3-5 are ever reached; in this total embedding the whole
reconciliation therefore yields no result. -/
theorem C3_window_overrun (old new : List VChild) (h0 : Nat)
    (h : keysOf old <+: keysOf new ∨ keysOf new <+: keysOf old ∨
         (keysOf old <:+ keysOf new ∧ (keysOf new).Nodup) ∨
         (keysOf new <:+ keysOf old ∧ (keysOf old).Nodup)) :
    patchKeyedChildren old new h0 = none := by
  have hklo : (keysOf old).length = old.length := by simp [keysOf]
  have hkln : (keysOf new).length = new.length := by simp [keysOf]
  have main : prefixLoop old 0 ⟨new, [], h0⟩ = none →
      patchKeyedChildren old new h0 = none := by
    intro hpl
    simp [patchKeyedChildren, hpl]
  have prefA : keysOf old <+: keysOf new →
      patchKeyedChildren old new h0 = none := by
    intro hp
    obtain ⟨tl, htl⟩ := hp
    apply main
    apply prefixLoop_exhausts old old.length 0 ⟨new, [], h0⟩ (by omega)
    intro i _ h1 h2
    rw [← htl, List.getElem?_append_left (by omega)]
  have prefB : keysOf new <+: keysOf old →
      patchKeyedChildren old new h0 = none := by
    intro hp
    obtain ⟨tl, htl⟩ := hp
    apply main
    apply prefixLoop_exhausts old old.length 0 ⟨new, [], h0⟩ (by omega)
    intro i _ h1 h2
    have h2' : i < new.length := h2
    rw [← htl, List.getElem?_append_left (by omega)]
  rcases h with hp | hp | ⟨hs, hnd⟩ | ⟨hs, hnd⟩
  · exact prefA hp
  · exact prefB hp
  · -- old keys are a suffix of new keys; new keys are distinct
    obtain ⟨t0, ht0⟩ := hs
    by_cases hteq : t0.length = 0
    · refine prefA ⟨[], ?_⟩
      rw [List.eq_nil_of_length_eq_zero hteq] at ht0
      simpa using ht0
    · by_cases holen : old.length = 0
      · refine prefA ⟨keysOf new, ?_⟩
        rw [List.eq_nil_of_length_eq_zero holen]
        simp [keysOf]
      · have hlen : new.length = t0.length + old.length := by
          rw [← hkln, ← ht0]
          simp [hklo]
        have hlo1 : 0 < old.length := by omega
        have hln1 : 0 < new.length := by omega
        have ho : old[0]? = some old[0] := List.getElem?_eq_getElem hlo1
        have hn : new[0]? = some new[0] := List.getElem?_eq_getElem hln1
        have hkne : ¬(old[0]).key = (new[0]).key := by
          intro he
          have hb1 : t0.length < (keysOf new).length := by
            rw [hkln]; omega
          have hb0 : 0 < (keysOf new).length := by rw [hkln]; omega
          have e1 : (keysOf new)[t0.length] = (old[0]).key := by
            have : (keysOf new)[t0.length]? = some ((old[0]).key) := by
              rw [← ht0, List.getElem?_append_right le_rfl]
              simp only [Nat.sub_self]
              unfold keysOf
              rw [List.getElem?_map, ho]
              rfl
            obtain ⟨hb, hv⟩ := List.getElem?_eq_some.mp this
            exact hv
          have e0 : (keysOf new)[0] = (new[0]).key := by
            unfold keysOf
            rw [List.getElem_map]
          have : t0.length = 0 := by
            have := (hnd.getElem_inj_iff).mp (e1.trans (he ▸ e0.symm))
            omega
          exact hteq this
        have hp0 : prefixLoop old 0 ⟨new, [], h0⟩ = some (0, ⟨new, [], h0⟩) := by
          rw [prefixLoop_step old 0 _ _ _ ho hn, if_neg hkne]
        have hp2 : suffixLoop old ((old.length : Int) - 1)
            ((new.length : Int) - 1) ⟨new, [], h0⟩ = none := by
          have e1 : ((old.length : Int)) - 1
              = ((old.length : Nat) : Int) + ((0 : Nat) : Int) - 1 := by
            push_cast; ring
          have e2 : ((new.length : Int)) - 1
              = ((old.length : Nat) : Int) + ((t0.length : Nat) : Int) - 1 := by
            rw [hlen]; push_cast; ring
          rw [e1, e2]
          apply suffixLoop_exhausts old old.length 0 t0.length ⟨new, [], h0⟩
            (Or.inl rfl) (by omega) (by simp; omega)
          intro i hi
          rw [← ht0, List.getElem?_append_right (by omega)]
          congr 1
          omega
        simp [patchKeyedChildren, hp0, hp2]
  · -- new keys are a suffix of old keys; old keys are distinct
    obtain ⟨t0, ht0⟩ := hs
    by_cases hteq : t0.length = 0
    · refine prefB ⟨[], ?_⟩
      rw [List.eq_nil_of_length_eq_zero hteq] at ht0
      simpa using ht0
    · by_cases hnlen : new.length = 0
      · refine prefB ⟨keysOf old, ?_⟩
        rw [List.eq_nil_of_length_eq_zero hnlen]
        simp [keysOf]
      · have hlen : old.length = t0.length + new.length := by
          rw [← hklo, ← ht0]
          simp [hkln]
        have hln1 : 0 < new.length := by omega
        have hlo1 : 0 < old.length := by omega
        have ho : old[0]? = some old[0] := List.getElem?_eq_getElem hlo1
        have hn : new[0]? = some new[0] := List.getElem?_eq_getElem hln1
        have hkne : ¬(old[0]).key = (new[0]).key := by
          intro he
          have hb1 : t0.length < (keysOf old).length := by
            rw [hklo]; omega
          have hb0 : 0 < (keysOf old).length := by rw [hklo]; omega
          have e1 : (keysOf old)[t0.length] = (new[0]).key := by
            have : (keysOf old)[t0.length]? = some ((new[0]).key) := by
              rw [← ht0, List.getElem?_append_right le_rfl]
              simp only [Nat.sub_self]
              unfold keysOf
              rw [List.getElem?_map, hn]
              rfl
            obtain ⟨hb, hv⟩ := List.getElem?_eq_some.mp this
            exact hv
          have e0 : (keysOf old)[0] = (old[0]).key := by
            unfold keysOf
            rw [List.getElem_map]
          have : t0.length = 0 := by
            have := (hnd.getElem_inj_iff).mp (e1.trans (he ▸ e0.symm)).symm
            omega
          exact hteq this
        have hp0 : prefixLoop old 0 ⟨new, [], h0⟩ = some (0, ⟨new, [], h0⟩) := by
          rw [prefixLoop_step old 0 _ _ _ ho hn, if_neg hkne]
        have hp2 : suffixLoop old ((old.length : Int) - 1)
            ((new.length : Int) - 1) ⟨new, [], h0⟩ = none := by
          have e1 : ((old.length : Int)) - 1
              = ((new.length : Nat) : Int) + ((t0.length : Nat) : Int) - 1 := by
            rw [hlen]; push_cast; ring
          have e2 : ((new.length : Int)) - 1
              = ((new.length : Nat) : Int) + ((0 : Nat) : Int) - 1 := by
            push_cast; ring
          rw [e1, e2]
          apply suffixLoop_exhausts old new.length t0.length 0 ⟨new, [], h0⟩
            (Or.inr rfl) (by omega) (by simp)
          intro i hi
          rw [← ht0, List.getElem?_append_right (by omega)]
          congr 1
          omega
        simp [patchKeyedChildren, hp0, hp2]

/-- Witness for C3_window_overrun: identical one-element key lists (key
prefix of each other) crash the reconciliation. -/
theorem C3_window_overrun_witness :
    patchKeyedChildren [⟨5, some 1⟩] [⟨5, none⟩] 0 = none :=
  C3_window_overrun [⟨5, some 1⟩] [⟨5, none⟩] 0 (Or.inl ⟨[], rfl⟩)

/-- Claim C2 (code evaluation at the failing input): patching a keyed child
list against an identical clone (same single key `0`) crashes — the phase-1
loop advances past both lists' ends and dereferences the key of a
nonexistent element (`none` in this total embedding) instead of completing
with zero operations. -/
theorem C2_identical_crashes :
    patchKeyedChildren [⟨0, some 5⟩] [⟨0, none⟩] 0 = none := by
  simp [patchKeyedChildren, prefixLoop_step, prefixLoop_crash_left, setElI]

end DayDayUp
